import Mathlib

/-!
Verification of the dialog-enumeration core of telethon/client/dialogs.py
(DialogMethods.iter_dialogs / DialogMethods.get_dialogs).

The enumeration loop is embedded shallowly: the mutable Python state
(the set `seen`, the request object `req`, the single-item list `_total`,
the registry `self._channel_pts`) becomes an explicit `LoopState`, the
loop `while len(seen) < limit` becomes a fuel-indexed recursion, and the
remote service is an oracle `svc : Nat → DialogsPage` giving the response
to the n-th fetch.  Every fetch is recorded in a ghost `log` (the request
snapshot, the size of `seen` at fetch time, and the number of dialogs
processed after the pinned-overflow truncation); the log does not
influence control flow.  Exceptions that the Python code can raise while
advancing the cursor (IndexError on `r.messages[-1]`, KeyError on the
entity lookup) are modelled by the `crashed` outcome.
-/

namespace Telethon

/-- Modelled from the spec: `utils.get_peer_id` is not under src/; the
spec only requires PeerId to be a normalized comparable identifier, so a
peer reference is embedded directly as its normalized `Int` id. -/
abbrev PeerId := Int

/-- Modelled from the spec: a user/chat object embedded in a page, as far
as the loop observes it — its normalized peer identity (via
`utils.get_peer_id`) and its optional migrated-to reference (read by
`getattr(cd.entity, migrated_to, None)`). -/
structure Entity where
  peerId : PeerId
  migratedTo : Option Int
  deriving DecidableEq, Repr

/-- Modelled from the spec: a message embedded in a page; the loop reads
only `m.id` and `m.date` (for the cursor) and keys the message table by
`m.id`. -/
structure Message where
  id : Int
  date : Int
  deriving DecidableEq, Repr

/-- Modelled from the spec: one DialogSummary of a page — its peer
reference (already normalized, see `PeerId`), its optional per-channel
state pointer `pts`, and the id of its associated top message. -/
structure DialogSummary where
  peer : PeerId
  pts : Option Nat
  topMessage : Int
  deriving DecidableEq, Repr

/-- Offset peer of a request: `InputPeerEmpty()` or an entity taken from
the entity table of a page. -/
inductive OffsetPeer where
  | empty : OffsetPeer
  | peer (e : Entity) : OffsetPeer
  deriving DecidableEq, Repr

/-- Modelled from the spec: `functions.messages.GetDialogsRequest` (a
TL-generated class outside src/): offsets, page size, the exclude-pinned
flag and the always-0 content hash. -/
structure GetDialogsRequest where
  offsetDate : Option Int
  offsetId : Int
  offsetPeer : OffsetPeer
  limit : Nat
  excludePinned : Bool
  hash : Nat
  deriving DecidableEq, Repr

/-- Modelled from the spec: a page response (`types.messages.Dialogs` or
`types.messages.DialogsSlice`, TL-generated classes outside src/).
Setting `count = none` models a response shape without a count attribute,
in which case `getattr(r, count, len(r.dialogs))` falls back to the
dialog count; `isSlice` models the runtime check
`isinstance(r, types.messages.DialogsSlice)`. -/
structure DialogsPage where
  dialogs : List DialogSummary
  messages : List Message
  users : List Entity
  chats : List Entity
  count : Option Nat
  isSlice : Bool

/-- Modelled from the spec: the emitted unit
`custom.Dialog(self, d, entities, messages)` — the summary joined with
its resolved entity and its associated message; `id` is the normalized
peer identity of the dialog (`cd.id`). -/
structure Dialog where
  dialog : DialogSummary
  entity : Option Entity
  message : Option Message
  id : PeerId
  deriving DecidableEq, Repr

/-- Association-list lookup, the observable behaviour of a Python dict. -/
def alookup {β : Type} : List (Int × β) → Int → Option β
  | [], _ => none
  | (k', v) :: rest, k => if k' = k then some v else alookup rest k

/-- Association-list update, the observable behaviour of `dict[k] = v`. -/
def upsert {β : Type} (m : List (Int × β)) (k : Int) (v : β) : List (Int × β) :=
  match m with
  | [] => [(k, v)]
  | (k', v') :: rest => if k' = k then (k, v) :: rest else (k', v') :: upsert rest k v

/-- The entity table of one page:
`entities = {utils.get_peer_id(x): x for x in itertools.chain(r.users, r.chats)}`. -/
def buildEntities (users chats : List Entity) : List (Int × Entity) :=
  (users ++ chats).foldl (fun m e => upsert m e.peerId e) []

/-- The message table of one page: `messages[m.id] = m` for every `m` in
`r.messages` (the `m._finish_init` call only binds resolver context and
is not observable here). -/
def buildMessages (msgs : List Message) : List (Int × Message) :=
  msgs.foldl (fun m msg => upsert m msg.id msg) []

/-- Construction of `custom.Dialog(self, d, entities, messages)`,
modelled from the spec: the record joins the summary with its resolved
entity and its associated message, and carries the peer identity of the
dialog as `id`. -/
def mkDialog (entities : List (Int × Entity)) (msgs : List (Int × Message))
    (d : DialogSummary) : Dialog :=
  { dialog := d
    entity := alookup entities d.peer
    message := alookup msgs d.topMessage
    id := d.peer }

/-- The migrated-to reference of a record:
`getattr(cd.entity, migrated_to, None)`. -/
def migratedOf (cd : Dialog) : Option Int :=
  cd.entity.bind Entity.migratedTo

/-- Ghost record of one fetch: the request as sent, the size of `seen`
when it was sent, and how many dialogs of the page were processed (after
the pinned-overflow truncation). -/
structure LogEntry where
  req : GetDialogsRequest
  seenBefore : Nat
  processed : Nat
  deriving DecidableEq, Repr

/-- The state the Python code mutates across loop iterations, plus the
ghost fetch log. -/
structure LoopState where
  req : GetDialogsRequest
  seen : List PeerId
  channelPts : List (Int × Nat)
  total : Option Nat
  log : List LogEntry
  deriving DecidableEq, Repr

/-- Result of processing the (truncated) dialog list of one page: the
updated dedup set and channel-pts registry, and the records emitted from
this page, in page order. -/
structure PageOut where
  seen : List PeerId
  pts : List (Int × Nat)
  emits : List Dialog
  deriving DecidableEq, Repr

/-- The body `for d in r.dialogs:` of iter_dialogs: dedup on
`utils.get_peer_id(d.peer)`, record `cd.dialog.pts` (when truthy) under
`cd.id` in the channel-pts registry, and yield unless ignore_migrated
suppresses a migrated entity. -/
def processPage (im : Bool) (entities : List (Int × Entity))
    (msgs : List (Int × Message)) :
    List DialogSummary → List PeerId → List (Int × Nat) → PageOut
  | [], seen, pts => ⟨seen, pts, []⟩
  | d :: rest, seen, pts =>
    if d.peer ∈ seen then
      processPage im entities msgs rest seen pts
    else
      let cd := mkDialog entities msgs d
      let pts' := if d.pts.getD 0 = 0 then pts else upsert pts cd.id (d.pts.getD 0)
      let po := processPage im entities msgs rest (d.peer :: seen) pts'
      if im = false ∨ migratedOf cd = none then
        ⟨po.seen, po.pts, cd :: po.emits⟩
      else
        po

/-- Page size of the next fetch: `req.limit = min(limit - len(seen), 100)`;
an unbounded limit (`limit=None`, i.e. float inf) gives 100. -/
def pageLimit (limit : Option Nat) (seenLen : Nat) : Nat :=
  match limit with
  | none => 100
  | some l => min (l - seenLen) 100

/-- Loop condition `while len(seen) < limit` (with limit = float inf when
`limit=None`). -/
def seenLt (seenLen : Nat) : Option Nat → Bool
  | none => true
  | some l => seenLen < l

/-- Pinned-overflow guard as written in the source:
`if len(r.dialogs) > limit: r.dialogs = r.dialogs[:limit]` — the
comparison and the slice use the overall limit, and a comparison against
float inf is never true. -/
def truncDialogs (limit : Option Nat) (ds : List DialogSummary) : List DialogSummary :=
  match limit with
  | none => ds
  | some l => if ds.length > l then ds.take l else ds

/-- Total-counter update
`if _total: _total[0] = getattr(r, count, len(r.dialogs))` (the handle,
when supplied, is overwritten on every page). -/
def totalUpd (t : Option Nat) (r : DialogsPage) : Option Nat :=
  match t with
  | none => none
  | some _ => some (r.count.getD r.dialogs.length)

inductive StepKind where
  | next : StepKind
  | stop : StepKind
  | crash : StepKind
  deriving DecidableEq, Repr

/-- The cursor advance after the termination checks passed:
`req.offset_date = r.messages[-1].date`, then
`req.offset_peer = entities[utils.get_peer_id(r.dialogs[-1].peer)]`, the
stuck-cursor check against the old `req.offset_id`, then
`req.offset_id = r.messages[-1].id` and `req.exclude_pinned = True`.
An empty message list or a failed entity lookup is the Python
IndexError/KeyError, modelled as `crash`. -/
def advanceCursor (r : DialogsPage) (ds : List DialogSummary)
    (entities : List (Int × Entity)) (st : LoopState) : LoopState × StepKind :=
  match r.messages.getLast? with
  | none => (st, .crash)
  | some lastMsg =>
    match ds.getLast? with
    | none => ({ st with req := { st.req with offsetDate := some lastMsg.date } }, .crash)
    | some lastD =>
      match alookup entities lastD.peer with
      | none => ({ st with req := { st.req with offsetDate := some lastMsg.date } }, .crash)
      | some ent =>
        if st.req.offsetId = lastMsg.id then
          ({ st with req := { st.req with
              offsetDate := some lastMsg.date, offsetPeer := .peer ent } }, .stop)
        else
          ({ st with req := { st.req with
              offsetDate := some lastMsg.date, offsetPeer := .peer ent,
              offsetId := lastMsg.id, excludePinned := true } }, .next)

structure StepOut where
  state : LoopState
  emits : List Dialog
  kind : StepKind

/-- The page-processing output of one loop iteration: the entity and
message tables are built for the page, the pinned-overflow guard is
applied, and the dialog list is processed against the current dedup set
and channel-pts registry. -/
def pageOf (limit : Option Nat) (im : Bool) (r : DialogsPage) (st : LoopState) : PageOut :=
  processPage im (buildEntities r.users r.chats) (buildMessages r.messages)
    (truncDialogs limit r.dialogs) st.seen st.channelPts

/-- The state after the straight-line part of one loop iteration: the
request carries the page size just used, `seen` and the channel-pts
registry are updated by the page, `_total` is overwritten, and the fetch
is logged. -/
def pageState (limit : Option Nat) (im : Bool) (r : DialogsPage) (st : LoopState) : LoopState :=
  { req := { st.req with limit := pageLimit limit st.seen.length }
    seen := (pageOf limit im r st).seen
    channelPts := (pageOf limit im r st).pts
    total := totalUpd st.total r
    log := st.log ++ [⟨{ st.req with limit := pageLimit limit st.seen.length },
      st.seen.length, (truncDialogs limit r.dialogs).length⟩] }

/-- One iteration of the while body, given the page `r` the service
returned for it: set `req.limit`, update `_total`, build the entity and
message tables, apply the pinned-overflow guard, process the dialog list,
then either stop (exhausted page / non-slice response / stuck cursor),
continue with an advanced cursor, or crash while advancing. -/
def stepPage (limit : Option Nat) (im : Bool) (r : DialogsPage) (st : LoopState) : StepOut :=
  if (truncDialogs limit r.dialogs).length < pageLimit limit st.seen.length ∨
      r.isSlice = false then
    ⟨pageState limit im r st, (pageOf limit im r st).emits, .stop⟩
  else
    let ak := advanceCursor r (truncDialogs limit r.dialogs)
      (buildEntities r.users r.chats) (pageState limit im r st)
    ⟨ak.1, (pageOf limit im r st).emits, ak.2⟩

inductive Outcome where
  | done : Outcome
  | fuelOut : Outcome
  | crashed : Outcome
  deriving DecidableEq, Repr

structure RunOut where
  state : LoopState
  emitted : List Dialog
  outcome : Outcome

/-- The loop `while len(seen) < limit:`, fuel-indexed.  The n-th fetch
(where n is `st.log.length`) receives the page `svc n`. -/
def iterLoop (svc : Nat → DialogsPage) (limit : Option Nat) (im : Bool) :
    Nat → LoopState → RunOut
  | 0, st =>
    ⟨st, [], if seenLt st.seen.length limit then .fuelOut else .done⟩
  | fuel + 1, st =>
    if seenLt st.seen.length limit then
      let so := stepPage limit im (svc st.log.length) st
      match so.kind with
      | .next =>
        let rest := iterLoop svc limit im fuel so.state
        ⟨rest.state, so.emits ++ rest.emitted, rest.outcome⟩
      | .stop => ⟨so.state, so.emits, .done⟩
      | .crash => ⟨so.state, so.emits, .crashed⟩
    else
      ⟨st, [], .done⟩

/-- The state at entry to iter_dialogs: the offsets of the caller, an
empty dedup set, and the `_total` handle (`none` = no handle supplied). -/
def initState (od : Option Int) (oi : Int) (op : OffsetPeer) (t0 : Option Nat) : LoopState :=
  { req := ⟨od, oi, op, 0, false, 0⟩
    seen := []
    channelPts := []
    total := t0
    log := [] }

/-- Embedding of `DialogMethods.iter_dialogs`: the special cases for
`limit == 0`, then the general loop.  Taking `limit = none` is
`limit=None` (unbounded); `t0 = some v` is a supplied `_total`
single-item list currently holding `v`. -/
def iter_dialogs (svc : Nat → DialogsPage) (fuel : Nat) (limit : Option Nat)
    (od : Option Int) (oi : Int) (op : OffsetPeer) (im : Bool) (t0 : Option Nat) : RunOut :=
  match limit, t0 with
  | some 0, none => ⟨initState od oi op none, [], .done⟩
  | some 0, some _ =>
    let r := svc 0
    ⟨{ initState od oi op t0 with
        total := some (r.count.getD r.dialogs.length)
        log := [⟨⟨od, oi, op, 1, false, 0⟩, 0, 0⟩] }, [], .done⟩
  | _, _ => iterLoop svc limit im fuel (initState od oi op t0)

/-- Embedding of `DialogMethods.get_dialogs`: drain iter_dialogs with a
`_total` handle initialized to `[0]` and return the list together with
`total[0]`. -/
def getDialogs (svc : Nat → DialogsPage) (fuel : Nat) (limit : Option Nat)
    (od : Option Int) (oi : Int) (op : OffsetPeer) (im : Bool) :
    List Dialog × Nat :=
  let r := iter_dialogs svc fuel limit od oi op im (some 0)
  (r.emitted, r.state.total.getD 0)

/-- Dialog lists processed per page: the page of the n-th fetch after the
pinned-overflow guard has this many dialogs. -/
def capLen (limit : Option Nat) (n : Nat) : Nat :=
  match limit with
  | none => n
  | some l => min n l

/- ### Concrete fixtures used by counterexamples and witnesses -/

/-- A dialog summary with the given peer and no pts. -/
def dsum (p : Int) : DialogSummary := ⟨p, none, 0⟩

/-- An entity with the given peer id and no migrated-to reference. -/
def ent (p : Int) : Entity := ⟨p, none⟩

/-- Fixture for the pinned-overflow claim, first page: three dialogs with
a repeated peer, a message for the cursor, matching entities, sliced. -/
def ovPage0 : DialogsPage :=
  ⟨[dsum 1, dsum 1, dsum 2], [⟨10, 100⟩], [ent 1, ent 2], [], none, true⟩

/-- Fixture for the pinned-overflow claim, second page: two dialogs when
only one will be requested (pinned overflow), non-sliced so the run ends
there. -/
def ovPage1 : DialogsPage :=
  ⟨[dsum 3, dsum 4], [⟨11, 101⟩], [ent 3, ent 4], [], none, false⟩

/-- Service returning `ovPage0` then `ovPage1`. -/
def ovSvc : Nat → DialogsPage := fun n => if n = 0 then ovPage0 else ovPage1

/-- Fixture for the loop-condition claim: a full sliced page of two
distinct dialogs of which the second resolves to a migrated entity. -/
def migPage : DialogsPage :=
  ⟨[dsum 1, ⟨2, none, 0⟩], [⟨5, 50⟩], [ent 1, ⟨2, some 99⟩], [], none, true⟩

/-- Service returning `migPage` forever (never exhausted). -/
def migSvc : Nat → DialogsPage := fun _ => migPage

/-- Fixture for the total-counter claim: ten distinct dialogs, an
authoritative count of 500, sliced, with a message and entities so the
cursor advance succeeds. -/
def totPage : DialogsPage :=
  ⟨(List.range 10).map (fun i => dsum i), [⟨1, 5⟩],
    (List.range 10).map (fun i => ent i), [], some 500, true⟩

/-- Service returning `totPage` forever. -/
def totSvc : Nat → DialogsPage := fun _ => totPage

/-- Fixture for the cursor-advance safety claim: a full sliced page with
an empty message list. -/
def noMsgPage : DialogsPage := ⟨[dsum 1, dsum 2], [], [ent 1, ent 2], [], none, true⟩

/-- Service returning `noMsgPage` forever. -/
def noMsgSvc : Nat → DialogsPage := fun _ => noMsgPage

/-- Fixture for the cursor-advance safety claim: a full sliced page whose
last dialog has no entry in the entity table. -/
def noEntPage : DialogsPage := ⟨[dsum 1, dsum 2], [⟨1, 1⟩], [ent 1], [], none, true⟩

/-- Service returning `noEntPage` forever. -/
def noEntSvc : Nat → DialogsPage := fun _ => noEntPage

/-- Fixture for the stuck-cursor claim: a full sliced page whose last
message id (10) will equal the offset id already in the cursor. -/
def stuckPage : DialogsPage := ⟨[dsum 1], [⟨10, 7⟩], [ent 1], [], none, true⟩

/-- Service returning `stuckPage` forever. -/
def stuckSvc : Nat → DialogsPage := fun _ => stuckPage

/- ### Association-list lemmas -/

theorem alookup_upsert_self {β : Type} (m : List (Int × β)) (k : Int) (v : β) :
    alookup (upsert m k v) k = some v := by
  induction m with
  | nil => simp [upsert, alookup]
  | cons hd tl ih =>
    obtain ⟨k', v'⟩ := hd
    by_cases h : k' = k
    · simp [upsert, alookup, h]
    · simp [upsert, alookup, h, ih]

theorem alookup_upsert_ne {β : Type} (m : List (Int × β)) (k' k : Int) (v : β)
    (h : k' ≠ k) : alookup (upsert m k' v) k = alookup m k := by
  induction m with
  | nil => simp [upsert, alookup, h]
  | cons hd tl ih =>
    obtain ⟨k0, v0⟩ := hd
    by_cases h0 : k0 = k'
    · subst h0
      simp [upsert, alookup, h]
    · simp only [upsert, if_neg h0]
      by_cases h1 : k0 = k
      · simp [alookup, h1]
      · simp [alookup, h1, ih]

/- ### processPage invariants -/

theorem processPage_seen_mono (im : Bool) (e : List (Int × Entity))
    (m : List (Int × Message)) :
    ∀ (ds : List DialogSummary) (s : List PeerId) (p : List (Int × Nat)),
      s ⊆ (processPage im e m ds s p).seen := by
  intro ds
  induction ds with
  | nil => intro s p; simp [processPage]
  | cons d rest ih =>
    intro s p
    simp only [processPage]
    split
    · exact ih s p
    · show _
      split
      · exact fun x hx => ih _ _ (List.mem_cons_of_mem _ hx)
      · exact fun x hx => ih _ _ (List.mem_cons_of_mem _ hx)

theorem processPage_emits_fresh (im : Bool) (e : List (Int × Entity))
    (m : List (Int × Message)) :
    ∀ (ds : List DialogSummary) (s : List PeerId) (p : List (Int × Nat)),
      (((processPage im e m ds s p).emits.map Dialog.id).Nodup ∧
        ∀ x ∈ (processPage im e m ds s p).emits.map Dialog.id,
          x ∈ (processPage im e m ds s p).seen ∧ x ∉ s) := by
  intro ds
  induction ds with
  | nil => intro s p; simp [processPage]
  | cons d rest ih =>
    intro s p
    simp only [processPage]
    split
    · exact ih s p
    · rename_i hns
      show _
      split
      · obtain ⟨hnd, hmem⟩ := ih (d.peer :: s) _
        constructor
        · simp only [List.map_cons, List.nodup_cons]
          refine ⟨fun hc => ?_, hnd⟩
          exact (hmem _ hc).2 (List.mem_cons_self _ _)
        · intro x hx
          simp only [List.map_cons, List.mem_cons] at hx
          rcases hx with hx | hx
          · subst hx
            refine ⟨processPage_seen_mono im e m rest _ _ (List.mem_cons_self _ _), ?_⟩
            simpa [mkDialog] using hns
          · obtain ⟨h1, h2⟩ := hmem x hx
            exact ⟨h1, fun hc => h2 (List.mem_cons_of_mem _ hc)⟩
      · obtain ⟨hnd, hmem⟩ := ih (d.peer :: s) _
        refine ⟨hnd, fun x hx => ?_⟩
        obtain ⟨h1, h2⟩ := hmem x hx
        exact ⟨h1, fun hc => h2 (List.mem_cons_of_mem _ hc)⟩

theorem processPage_im_eq (e : List (Int × Entity)) (m : List (Int × Message)) :
    ∀ (ds : List DialogSummary) (s : List PeerId) (p : List (Int × Nat)),
      ((processPage true e m ds s p).seen = (processPage false e m ds s p).seen ∧
        (processPage true e m ds s p).pts = (processPage false e m ds s p).pts ∧
        (processPage true e m ds s p).emits =
          (processPage false e m ds s p).emits.filter
            (fun cd => (migratedOf cd).isNone)) := by
  intro ds
  induction ds with
  | nil => intro s p; simp [processPage]
  | cons d rest ih =>
    intro s p
    simp only [processPage]
    split
    · exact ih s p
    · show _
      obtain ⟨h1, h2, h3⟩ := ih (d.peer :: s)
        (if d.pts.getD 0 = 0 then p else upsert p (mkDialog e m d).id (d.pts.getD 0))
      by_cases hm : migratedOf (mkDialog e m d) = none
      · rw [if_pos (Or.inr hm), if_pos (Or.inl trivial)]
        refine ⟨h1, h2, ?_⟩
        have hcd : ((migratedOf (mkDialog e m d)).isNone = true) := by
          simp [hm]
        show _ = List.filter _ (_ :: _)
        simp only [List.filter_cons, hcd, if_true]
        rw [h3]
      · rw [if_pos (Or.inl trivial)]
        split
        · rename_i hyes
          simp [hm] at hyes
        · refine ⟨h1, h2, ?_⟩
          have hcd : ¬((migratedOf (mkDialog e m d)).isNone = true) := by
            simp [Option.isNone_iff_eq_none, hm]
          show _ = List.filter _ (_ :: _)
          simp only [List.filter_cons, if_neg hcd]
          exact h3

theorem processPage_false_len (e : List (Int × Entity)) (m : List (Int × Message)) :
    ∀ (ds : List DialogSummary) (s : List PeerId) (p : List (Int × Nat)),
      (processPage false e m ds s p).emits.length + s.length =
        (processPage false e m ds s p).seen.length := by
  intro ds
  induction ds with
  | nil => intro s p; simp [processPage]
  | cons d rest ih =>
    intro s p
    simp only [processPage]
    split
    · exact ih s p
    · show _
      have h := ih (d.peer :: s)
        (if d.pts.getD 0 = 0 then p else upsert p (mkDialog e m d).id (d.pts.getD 0))
      rw [if_pos (Or.inl trivial)]
      simp only [List.length_cons] at h ⊢
      omega

theorem processPage_pts_stable (im : Bool) (e : List (Int × Entity))
    (m : List (Int × Message)) :
    ∀ (ds : List DialogSummary) (s : List PeerId) (p : List (Int × Nat)) (k : Int),
      k ∈ s → alookup (processPage im e m ds s p).pts k = alookup p k := by
  intro ds
  induction ds with
  | nil => intro s p k _; simp [processPage]
  | cons d rest ih =>
    intro s p k hk
    simp only [processPage]
    split
    · exact ih s p k hk
    · rename_i hns
      show _
      have hne : (mkDialog e m d).id ≠ k := by
        simp only [mkDialog]
        exact fun hc => hns (hc ▸ hk)
      have hrec := ih (d.peer :: s)
        (if d.pts.getD 0 = 0 then p else upsert p (mkDialog e m d).id (d.pts.getD 0))
        k (List.mem_cons_of_mem _ hk)
      have hbase :
          alookup (if d.pts.getD 0 = 0 then p
            else upsert p (mkDialog e m d).id (d.pts.getD 0)) k = alookup p k := by
        split
        · rfl
        · exact alookup_upsert_ne p _ k _ hne
      split
      · exact hrec.trans hbase
      · exact hrec.trans hbase

theorem processPage_first_write (im : Bool) (e : List (Int × Entity))
    (m : List (Int × Message)) :
    ∀ (ds1 : List DialogSummary) (d : DialogSummary) (ds2 : List DialogSummary)
      (s : List PeerId) (p : List (Int × Nat)),
      d.peer ∉ s → d.peer ∉ ds1.map DialogSummary.peer →
      (d.peer ∈ (processPage im e m (ds1 ++ d :: ds2) s p).seen ∧
        (d.pts.getD 0 ≠ 0 →
          alookup (processPage im e m (ds1 ++ d :: ds2) s p).pts d.peer =
            some (d.pts.getD 0))) := by
  intro ds1
  induction ds1 with
  | nil =>
    intro d ds2 s p hs _
    simp only [List.nil_append, processPage, if_neg hs]
    show _
    constructor
    · have hseen : d.peer ∈ d.peer :: s := List.mem_cons_self _ _
      split
      · exact processPage_seen_mono im e m ds2 _ _ hseen
      · exact processPage_seen_mono im e m ds2 _ _ hseen
    · intro hpts
      rw [if_neg hpts]
      have hstable := processPage_pts_stable im e m ds2 (d.peer :: s)
        (upsert p (mkDialog e m d).id (d.pts.getD 0))
        d.peer (List.mem_cons_self _ _)
      have hbase :
          alookup (upsert p (mkDialog e m d).id (d.pts.getD 0)) d.peer =
            some (d.pts.getD 0) :=
        alookup_upsert_self p d.peer _
      split
      · exact hstable.trans hbase
      · exact hstable.trans hbase
  | cons d1 rest ih =>
    intro d ds2 s p hs h1
    simp only [List.map_cons, List.mem_cons] at h1
    push_neg at h1
    obtain ⟨hne, hrest⟩ := h1
    simp only [List.cons_append, processPage]
    split
    · exact ih d ds2 s p hs hrest
    · show _
      have hs2 : d.peer ∉ d1.peer :: s := by
        simp only [List.mem_cons]
        push_neg
        exact ⟨hne, hs⟩
      have hrec := ih d ds2 (d1.peer :: s)
        (if d1.pts.getD 0 = 0 then p else upsert p (mkDialog e m d1).id (d1.pts.getD 0))
        hs2 hrest
      split
      · exact hrec
      · exact hrec

/- ### advanceCursor and stepPage lemmas -/

theorem advanceCursor_pres (r : DialogsPage) (ds : List DialogSummary)
    (e : List (Int × Entity)) (st : LoopState) :
    ((advanceCursor r ds e st).1.seen = st.seen ∧
      (advanceCursor r ds e st).1.channelPts = st.channelPts ∧
      (advanceCursor r ds e st).1.total = st.total ∧
      (advanceCursor r ds e st).1.log = st.log) := by
  rcases hm : r.messages.getLast? with _ | lastMsg
  · simp [advanceCursor, hm]
  · rcases hd : ds.getLast? with _ | lastD
    · simp [advanceCursor, hm, hd]
    · rcases he : alookup e lastD.peer with _ | ent2
      · simp [advanceCursor, hm, hd, he]
      · by_cases h : st.req.offsetId = lastMsg.id
        · simp [advanceCursor, hm, hd, he, h]
        · simp [advanceCursor, hm, hd, he, h]

theorem stepPage_state_eq (limit : Option Nat) (im : Bool) (r : DialogsPage)
    (st : LoopState) :
    ((stepPage limit im r st).state.seen = (pageOf limit im r st).seen ∧
      (stepPage limit im r st).state.channelPts = (pageOf limit im r st).pts ∧
      (stepPage limit im r st).state.total = totalUpd st.total r ∧
      (stepPage limit im r st).state.log = st.log ++
        [⟨{ st.req with limit := pageLimit limit st.seen.length },
          st.seen.length, (truncDialogs limit r.dialogs).length⟩] ∧
      (stepPage limit im r st).emits = (pageOf limit im r st).emits) := by
  unfold stepPage
  split
  · exact ⟨rfl, rfl, rfl, rfl, rfl⟩
  · have h := advanceCursor_pres r (truncDialogs limit r.dialogs)
      (buildEntities r.users r.chats) (pageState limit im r st)
    exact ⟨h.1, h.2.1, h.2.2.1, h.2.2.2, rfl⟩

theorem stepPage_seen_mono (limit : Option Nat) (im : Bool) (r : DialogsPage)
    (st : LoopState) : st.seen ⊆ (stepPage limit im r st).state.seen := by
  rw [(stepPage_state_eq limit im r st).1]
  exact processPage_seen_mono im (buildEntities r.users r.chats)
    (buildMessages r.messages) (truncDialogs limit r.dialogs) st.seen st.channelPts

theorem stepPage_im_indep (limit : Option Nat) (r : DialogsPage) (st : LoopState) :
    ((stepPage limit true r st).state = (stepPage limit false r st).state ∧
      (stepPage limit true r st).kind = (stepPage limit false r st).kind ∧
      (stepPage limit true r st).emits =
        (stepPage limit false r st).emits.filter
          (fun cd => (migratedOf cd).isNone)) := by
  have hpo := processPage_im_eq (buildEntities r.users r.chats) (buildMessages r.messages)
    (truncDialogs limit r.dialogs) st.seen st.channelPts
  have hps : pageState limit true r st = pageState limit false r st := by
    unfold pageState pageOf
    rw [hpo.1, hpo.2.1]
  have hpe : (pageOf limit true r st).emits =
      ((pageOf limit false r st).emits).filter (fun cd => (migratedOf cd).isNone) := by
    unfold pageOf
    exact hpo.2.2
  unfold stepPage
  split
  · exact ⟨by rw [hps], rfl, hpe⟩
  · rw [hps]
    exact ⟨rfl, rfl, hpe⟩

/- ### iterLoop unfolding lemmas -/

theorem iterLoop_zero (svc : Nat → DialogsPage) (limit : Option Nat) (im : Bool)
    (st : LoopState) :
    iterLoop svc limit im 0 st =
      ⟨st, [], if seenLt st.seen.length limit then .fuelOut else .done⟩ := rfl

theorem iterLoop_succ_not (svc : Nat → DialogsPage) (limit : Option Nat) (im : Bool)
    (fuel : Nat) (st : LoopState) (hc : seenLt st.seen.length limit = false) :
    iterLoop svc limit im (fuel + 1) st = ⟨st, [], .done⟩ := by
  simp [iterLoop, hc]

theorem iterLoop_succ_stop (svc : Nat → DialogsPage) (limit : Option Nat) (im : Bool)
    (fuel : Nat) (st : LoopState) (hc : seenLt st.seen.length limit = true)
    (hk : (stepPage limit im (svc st.log.length) st).kind = .stop) :
    iterLoop svc limit im (fuel + 1) st =
      ⟨(stepPage limit im (svc st.log.length) st).state,
        (stepPage limit im (svc st.log.length) st).emits, .done⟩ := by
  simp [iterLoop, hc, hk]

theorem iterLoop_succ_crash (svc : Nat → DialogsPage) (limit : Option Nat) (im : Bool)
    (fuel : Nat) (st : LoopState) (hc : seenLt st.seen.length limit = true)
    (hk : (stepPage limit im (svc st.log.length) st).kind = .crash) :
    iterLoop svc limit im (fuel + 1) st =
      ⟨(stepPage limit im (svc st.log.length) st).state,
        (stepPage limit im (svc st.log.length) st).emits, .crashed⟩ := by
  simp [iterLoop, hc, hk]

theorem iterLoop_succ_next (svc : Nat → DialogsPage) (limit : Option Nat) (im : Bool)
    (fuel : Nat) (st : LoopState) (hc : seenLt st.seen.length limit = true)
    (hk : (stepPage limit im (svc st.log.length) st).kind = .next) :
    iterLoop svc limit im (fuel + 1) st =
      ⟨(iterLoop svc limit im fuel (stepPage limit im (svc st.log.length) st).state).state,
        (stepPage limit im (svc st.log.length) st).emits ++
          (iterLoop svc limit im fuel
            (stepPage limit im (svc st.log.length) st).state).emitted,
        (iterLoop svc limit im fuel
          (stepPage limit im (svc st.log.length) st).state).outcome⟩ := by
  simp [iterLoop, hc, hk]

/- ### Truncation and log helpers -/

theorem truncDialogs_length (limit : Option Nat) (ds : List DialogSummary) :
    (truncDialogs limit ds).length = capLen limit ds.length := by
  cases limit with
  | none => rfl
  | some l =>
    simp only [truncDialogs, capLen]
    split
    · rw [List.length_take]
      omega
    · omega

theorem truncDialogs_lt (limit : Option Nat) (ds : List DialogSummary) (s : Nat) :
    ((truncDialogs limit ds).length < pageLimit limit s ↔
      ds.length < pageLimit limit s) := by
  rw [truncDialogs_length]
  cases limit with
  | none => exact Iff.rfl
  | some l =>
    simp only [capLen, pageLimit]
    omega

theorem log_append_get {α : Type} (P : Nat → α → Prop) (l : List α) (a : α)
    (hl : ∀ i (h : i < l.length), P i (l.get ⟨i, h⟩))
    (ha : P l.length a) :
    ∀ i (h : i < (l ++ [a]).length), P i ((l ++ [a]).get ⟨i, h⟩) := by
  intro i h
  by_cases hi : i < l.length
  · have he : (l ++ [a]).get ⟨i, h⟩ = l.get ⟨i, hi⟩ := by
      simp [List.get_eq_getElem, List.getElem_append_left hi]
    rw [he]
    exact hl i hi
  · have hlen : i < l.length + 1 := by
      rw [List.length_append] at h
      simpa using h
    have hie : i = l.length := by omega
    subst hie
    have he : (l ++ [a]).get ⟨l.length, h⟩ = a := by
      simp [List.get_eq_getElem]
    rw [he]
    exact ha

theorem log_transport {α : Type} (P : Nat → α → Prop) {l1 l2 : List α} (hl : l1 = l2)
    (h : ∀ i (hi : i < l1.length), P i (l1.get ⟨i, hi⟩)) :
    ∀ i (hi : i < l2.length), P i (l2.get ⟨i, hi⟩) := by
  subst hl
  exact h

/- ### stepPage termination and safety lemmas -/

theorem stepPage_stuck (limit : Option Nat) (im : Bool) (r : DialogsPage)
    (st : LoopState) (m : Message) (lastD : DialogSummary) (e2 : Entity)
    (hA : ¬((truncDialogs limit r.dialogs).length < pageLimit limit st.seen.length))
    (hB : r.isSlice = true)
    (hm : r.messages.getLast? = some m)
    (hd : (truncDialogs limit r.dialogs).getLast? = some lastD)
    (he : alookup (buildEntities r.users r.chats) lastD.peer = some e2)
    (heq : st.req.offsetId = m.id) :
    (stepPage limit im r st).kind = .stop := by
  unfold stepPage
  rw [if_neg (by simp [not_or, hA, hB])]
  simp only [advanceCursor, hm, hd, he]
  rw [if_pos (show (pageState limit im r st).req.offsetId = m.id from heq)]

theorem stepPage_short (limit : Option Nat) (im : Bool) (r : DialogsPage)
    (st : LoopState)
    (h : r.dialogs.length < pageLimit limit st.seen.length ∨ r.isSlice = false) :
    (stepPage limit im r st).kind = .stop := by
  unfold stepPage
  rw [if_pos ?hcond]
  case hcond =>
    rcases h with h | h
    · exact Or.inl ((truncDialogs_lt limit r.dialogs st.seen.length).mpr h)
    · exact Or.inr h

theorem stepPage_no_crash (limit : Option Nat) (im : Bool) (r : DialogsPage)
    (st : LoopState) (m : Message) (lastD : DialogSummary) (e2 : Entity)
    (hm : r.messages.getLast? = some m)
    (hd : (truncDialogs limit r.dialogs).getLast? = some lastD)
    (he : alookup (buildEntities r.users r.chats) lastD.peer = some e2) :
    ¬((stepPage limit im r st).kind = .crash) := by
  unfold stepPage
  split
  · simp
  · simp only [advanceCursor, hm, hd, he]
    split
    · simp
    · simp

theorem iterLoop_stop_run (svc : Nat → DialogsPage) (limit : Option Nat) (im : Bool)
    (fuel : Nat) (st : LoopState)
    (hc : seenLt st.seen.length limit = true)
    (hk : (stepPage limit im (svc st.log.length) st).kind = .stop) :
    ((iterLoop svc limit im (fuel + 1) st).outcome = .done ∧
      (iterLoop svc limit im (fuel + 1) st).state.log.length = st.log.length + 1) := by
  rw [iterLoop_succ_stop svc limit im fuel st hc hk]
  refine ⟨rfl, ?_⟩
  show (stepPage limit im (svc st.log.length) st).state.log.length = st.log.length + 1
  rw [(stepPage_state_eq limit im (svc st.log.length) st).2.2.2.1]
  simp

/- ### iterLoop inductive invariants -/

theorem iterLoop_emits_nodup (svc : Nat → DialogsPage) (limit : Option Nat) (im : Bool) :
    ∀ (fuel : Nat) (st : LoopState),
      ((((iterLoop svc limit im fuel st).emitted.map Dialog.id).Nodup ∧
        ∀ x ∈ (iterLoop svc limit im fuel st).emitted.map Dialog.id, x ∉ st.seen)) := by
  intro fuel
  induction fuel with
  | zero =>
    intro st
    rw [iterLoop_zero]
    simp
  | succ f ih =>
    intro st
    by_cases hc : seenLt st.seen.length limit = true
    · have hstate := stepPage_state_eq limit im (svc st.log.length) st
      have hfresh := processPage_emits_fresh im
        (buildEntities (svc st.log.length).users (svc st.log.length).chats)
        (buildMessages (svc st.log.length).messages)
        (truncDialogs limit (svc st.log.length).dialogs) st.seen st.channelPts
      have hemits : (stepPage limit im (svc st.log.length) st).emits =
          (pageOf limit im (svc st.log.length) st).emits := hstate.2.2.2.2
      cases hk : (stepPage limit im (svc st.log.length) st).kind with
      | next =>
        rw [iterLoop_succ_next svc limit im f st hc hk]
        obtain ⟨ihn, ihm⟩ := ih (stepPage limit im (svc st.log.length) st).state
        constructor
        · show (((stepPage limit im (svc st.log.length) st).emits ++
            (iterLoop svc limit im f
              (stepPage limit im (svc st.log.length) st).state).emitted).map Dialog.id).Nodup
          rw [List.map_append, List.nodup_append]
          refine ⟨?_, ihn, ?_⟩
          · rw [hemits]
            exact hfresh.1
          · intro x hx1 hx2
            have h1 : x ∈ (pageOf limit im (svc st.log.length) st).seen := by
              rw [hemits] at hx1
              exact (hfresh.2 x hx1).1
            have h2 := ihm x hx2
            rw [hstate.1] at h2
            exact h2 h1
        · intro x hx
          show x ∉ st.seen
          rw [show (⟨(iterLoop svc limit im f
              (stepPage limit im (svc st.log.length) st).state).state,
              (stepPage limit im (svc st.log.length) st).emits ++
                (iterLoop svc limit im f
                  (stepPage limit im (svc st.log.length) st).state).emitted,
              (iterLoop svc limit im f
                (stepPage limit im (svc st.log.length) st).state).outcome⟩ :
              RunOut).emitted = (stepPage limit im (svc st.log.length) st).emits ++
                (iterLoop svc limit im f
                  (stepPage limit im (svc st.log.length) st).state).emitted from rfl,
            List.map_append, List.mem_append] at hx
          rcases hx with hx | hx
          · rw [hemits] at hx
            exact (hfresh.2 x hx).2
          · intro hcon
            exact ihm x hx (stepPage_seen_mono limit im (svc st.log.length) st hcon)
      | stop =>
        rw [iterLoop_succ_stop svc limit im f st hc hk]
        constructor
        · show (((stepPage limit im (svc st.log.length) st).emits).map Dialog.id).Nodup
          rw [hemits]
          exact hfresh.1
        · intro x hx
          show x ∉ st.seen
          rw [show (⟨(stepPage limit im (svc st.log.length) st).state,
              (stepPage limit im (svc st.log.length) st).emits, Outcome.done⟩ :
              RunOut).emitted = (stepPage limit im (svc st.log.length) st).emits from rfl,
            hemits] at hx
          exact (hfresh.2 x hx).2
      | crash =>
        rw [iterLoop_succ_crash svc limit im f st hc hk]
        constructor
        · show (((stepPage limit im (svc st.log.length) st).emits).map Dialog.id).Nodup
          rw [hemits]
          exact hfresh.1
        · intro x hx
          show x ∉ st.seen
          rw [show (⟨(stepPage limit im (svc st.log.length) st).state,
              (stepPage limit im (svc st.log.length) st).emits, Outcome.crashed⟩ :
              RunOut).emitted = (stepPage limit im (svc st.log.length) st).emits from rfl,
            hemits] at hx
          exact (hfresh.2 x hx).2
    · have hc2 : seenLt st.seen.length limit = false := by
        simpa using hc
      rw [iterLoop_succ_not svc limit im f st hc2]
      simp

theorem iterLoop_im_indep (svc : Nat → DialogsPage) (limit : Option Nat) :
    ∀ (fuel : Nat) (st : LoopState),
      ((iterLoop svc limit true fuel st).state = (iterLoop svc limit false fuel st).state ∧
        (iterLoop svc limit true fuel st).outcome =
          (iterLoop svc limit false fuel st).outcome ∧
        (iterLoop svc limit true fuel st).emitted =
          (iterLoop svc limit false fuel st).emitted.filter
            (fun cd => (migratedOf cd).isNone)) := by
  intro fuel
  induction fuel with
  | zero =>
    intro st
    rw [iterLoop_zero, iterLoop_zero]
    exact ⟨rfl, rfl, by simp⟩
  | succ f ih =>
    intro st
    by_cases hc : seenLt st.seen.length limit = true
    · have hstep := stepPage_im_indep limit (svc st.log.length) st
      cases hk : (stepPage limit false (svc st.log.length) st).kind with
      | next =>
        have hkT : (stepPage limit true (svc st.log.length) st).kind = .next :=
          hstep.2.1.trans hk
        rw [iterLoop_succ_next svc limit true f st hc hkT,
          iterLoop_succ_next svc limit false f st hc hk]
        rw [hstep.1]
        obtain ⟨i1, i2, i3⟩ := ih (stepPage limit false (svc st.log.length) st).state
        refine ⟨i1, i2, ?_⟩
        show (stepPage limit true (svc st.log.length) st).emits ++ _ =
          List.filter _ ((stepPage limit false (svc st.log.length) st).emits ++ _)
        rw [List.filter_append, hstep.2.2, i3]
      | stop =>
        have hkT : (stepPage limit true (svc st.log.length) st).kind = .stop :=
          hstep.2.1.trans hk
        rw [iterLoop_succ_stop svc limit true f st hc hkT,
          iterLoop_succ_stop svc limit false f st hc hk]
        exact ⟨hstep.1, rfl, hstep.2.2⟩
      | crash =>
        have hkT : (stepPage limit true (svc st.log.length) st).kind = .crash :=
          hstep.2.1.trans hk
        rw [iterLoop_succ_crash svc limit true f st hc hkT,
          iterLoop_succ_crash svc limit false f st hc hk]
        exact ⟨hstep.1, rfl, hstep.2.2⟩
    · have hc2 : seenLt st.seen.length limit = false := by
        simpa using hc
      rw [iterLoop_succ_not svc limit true f st hc2,
        iterLoop_succ_not svc limit false f st hc2]
      exact ⟨rfl, rfl, by simp⟩

theorem iterLoop_false_len (svc : Nat → DialogsPage) (limit : Option Nat) :
    ∀ (fuel : Nat) (st : LoopState),
      (iterLoop svc limit false fuel st).emitted.length + st.seen.length =
        (iterLoop svc limit false fuel st).state.seen.length := by
  intro fuel
  induction fuel with
  | zero =>
    intro st
    rw [iterLoop_zero]
    simp
  | succ f ih =>
    intro st
    by_cases hc : seenLt st.seen.length limit = true
    · have hstate := stepPage_state_eq limit false (svc st.log.length) st
      have hlen := processPage_false_len
        (buildEntities (svc st.log.length).users (svc st.log.length).chats)
        (buildMessages (svc st.log.length).messages)
        (truncDialogs limit (svc st.log.length).dialogs) st.seen st.channelPts
      have hso : (stepPage limit false (svc st.log.length) st).emits.length +
          st.seen.length =
          (stepPage limit false (svc st.log.length) st).state.seen.length := by
        rw [hstate.2.2.2.2, hstate.1]
        exact hlen
      cases hk : (stepPage limit false (svc st.log.length) st).kind with
      | next =>
        rw [iterLoop_succ_next svc limit false f st hc hk]
        have hrec := ih (stepPage limit false (svc st.log.length) st).state
        show ((stepPage limit false (svc st.log.length) st).emits ++
            (iterLoop svc limit false f
              (stepPage limit false (svc st.log.length) st).state).emitted).length +
            st.seen.length =
          (iterLoop svc limit false f
            (stepPage limit false (svc st.log.length) st).state).state.seen.length
        rw [List.length_append]
        omega
      | stop =>
        rw [iterLoop_succ_stop svc limit false f st hc hk]
        exact hso
      | crash =>
        rw [iterLoop_succ_crash svc limit false f st hc hk]
        exact hso
    · have hc2 : seenLt st.seen.length limit = false := by
        simpa using hc
      rw [iterLoop_succ_not svc limit false f st hc2]
      simp

theorem iterLoop_log_processed (svc : Nat → DialogsPage) (limit : Option Nat)
    (im : Bool) :
    ∀ (fuel : Nat) (st : LoopState),
      (∀ i (h : i < st.log.length),
        (st.log.get ⟨i, h⟩).processed = capLen limit (svc i).dialogs.length) →
      ∀ i (h : i < (iterLoop svc limit im fuel st).state.log.length),
        ((iterLoop svc limit im fuel st).state.log.get ⟨i, h⟩).processed =
          capLen limit (svc i).dialogs.length := by
  intro fuel
  induction fuel with
  | zero =>
    intro st hst
    rw [iterLoop_zero]
    exact hst
  | succ f ih =>
    intro st hst
    by_cases hc : seenLt st.seen.length limit = true
    · have hnew : ∀ i (h : i < (stepPage limit im (svc st.log.length) st).state.log.length),
          ((stepPage limit im (svc st.log.length) st).state.log.get ⟨i, h⟩).processed =
            capLen limit (svc i).dialogs.length := by
        exact log_transport
          (fun i en => en.processed = capLen limit (svc i).dialogs.length)
          ((stepPage_state_eq limit im (svc st.log.length) st).2.2.2.1).symm
          (log_append_get
            (fun i en => en.processed = capLen limit (svc i).dialogs.length)
            st.log
            ⟨{ st.req with limit := pageLimit limit st.seen.length }, st.seen.length,
              (truncDialogs limit (svc st.log.length).dialogs).length⟩
            hst (truncDialogs_length limit (svc st.log.length).dialogs))
      cases hk : (stepPage limit im (svc st.log.length) st).kind with
      | next =>
        rw [iterLoop_succ_next svc limit im f st hc hk]
        exact ih (stepPage limit im (svc st.log.length) st).state hnew
      | stop =>
        rw [iterLoop_succ_stop svc limit im f st hc hk]
        exact hnew
      | crash =>
        rw [iterLoop_succ_crash svc limit im f st hc hk]
        exact hnew
    · have hc2 : seenLt st.seen.length limit = false := by
        simpa using hc
      rw [iterLoop_succ_not svc limit im f st hc2]
      exact hst

theorem iterLoop_log_seen (svc : Nat → DialogsPage) (l : Nat) (im : Bool) :
    ∀ (fuel : Nat) (st : LoopState),
      (∀ i (h : i < st.log.length),
        ((st.log.get ⟨i, h⟩).seenBefore < l ∧
          (st.log.get ⟨i, h⟩).req.limit =
            min (l - (st.log.get ⟨i, h⟩).seenBefore) 100)) →
      ∀ i (h : i < (iterLoop svc (some l) im fuel st).state.log.length),
        (((iterLoop svc (some l) im fuel st).state.log.get ⟨i, h⟩).seenBefore < l ∧
          ((iterLoop svc (some l) im fuel st).state.log.get ⟨i, h⟩).req.limit =
            min (l - ((iterLoop svc (some l) im fuel st).state.log.get
              ⟨i, h⟩).seenBefore) 100) := by
  intro fuel
  induction fuel with
  | zero =>
    intro st hst
    rw [iterLoop_zero]
    exact hst
  | succ f ih =>
    intro st hst
    by_cases hc : seenLt st.seen.length (some l) = true
    · have hlt : st.seen.length < l := by
        simpa [seenLt] using hc
      have hnew : ∀ i
          (h : i < (stepPage (some l) im (svc st.log.length) st).state.log.length),
          (((stepPage (some l) im (svc st.log.length) st).state.log.get
              ⟨i, h⟩).seenBefore < l ∧
            ((stepPage (some l) im (svc st.log.length) st).state.log.get
              ⟨i, h⟩).req.limit =
              min (l - ((stepPage (some l) im (svc st.log.length) st).state.log.get
                ⟨i, h⟩).seenBefore) 100) := by
        exact log_transport
          (fun _ en => en.seenBefore < l ∧
            en.req.limit = min (l - en.seenBefore) 100)
          ((stepPage_state_eq (some l) im (svc st.log.length) st).2.2.2.1).symm
          (log_append_get
            (fun _ en => en.seenBefore < l ∧
              en.req.limit = min (l - en.seenBefore) 100)
            st.log
            ⟨{ st.req with limit := pageLimit (some l) st.seen.length }, st.seen.length,
              (truncDialogs (some l) (svc st.log.length).dialogs).length⟩
            hst ⟨hlt, rfl⟩)
      cases hk : (stepPage (some l) im (svc st.log.length) st).kind with
      | next =>
        rw [iterLoop_succ_next svc (some l) im f st hc hk]
        exact ih (stepPage (some l) im (svc st.log.length) st).state hnew
      | stop =>
        rw [iterLoop_succ_stop svc (some l) im f st hc hk]
        exact hnew
      | crash =>
        rw [iterLoop_succ_crash svc (some l) im f st hc hk]
        exact hnew
    · have hc2 : seenLt st.seen.length (some l) = false := by
        simpa using hc
      rw [iterLoop_succ_not svc (some l) im f st hc2]
      exact hst

theorem iterLoop_total_last (svc : Nat → DialogsPage) (limit : Option Nat) (im : Bool) :
    ∀ (fuel : Nat) (st : LoopState),
      st.total.isSome = true →
      (∀ n, st.log.length = n + 1 →
        st.total = some ((svc n).count.getD (svc n).dialogs.length)) →
      (((iterLoop svc limit im fuel st).state.total.isSome = true ∧
        ∀ n, (iterLoop svc limit im fuel st).state.log.length = n + 1 →
          (iterLoop svc limit im fuel st).state.total =
            some ((svc n).count.getD (svc n).dialogs.length))) := by
  intro fuel
  induction fuel with
  | zero =>
    intro st h1 h2
    rw [iterLoop_zero]
    exact ⟨h1, h2⟩
  | succ f ih =>
    intro st h1 h2
    by_cases hc : seenLt st.seen.length limit = true
    · obtain ⟨t, ht⟩ := Option.isSome_iff_exists.mp h1
      have htu : totalUpd st.total (svc st.log.length) =
          some (((svc st.log.length)).count.getD (svc st.log.length).dialogs.length) := by
        rw [ht]
        rfl
      have hstate := stepPage_state_eq limit im (svc st.log.length) st
      have hS1 : (stepPage limit im (svc st.log.length) st).state.total.isSome = true := by
        rw [hstate.2.2.1, htu]
        rfl
      have hSlen : (stepPage limit im (svc st.log.length) st).state.log.length =
          st.log.length + 1 := by
        rw [hstate.2.2.2.1]
        simp
      have hS2 : ∀ n, (stepPage limit im (svc st.log.length) st).state.log.length = n + 1 →
          (stepPage limit im (svc st.log.length) st).state.total =
            some ((svc n).count.getD (svc n).dialogs.length) := by
        intro n hn
        rw [hSlen] at hn
        have : n = st.log.length := by omega
        subst this
        rw [hstate.2.2.1]
        exact htu
      cases hk : (stepPage limit im (svc st.log.length) st).kind with
      | next =>
        rw [iterLoop_succ_next svc limit im f st hc hk]
        exact ih (stepPage limit im (svc st.log.length) st).state hS1 hS2
      | stop =>
        rw [iterLoop_succ_stop svc limit im f st hc hk]
        exact ⟨hS1, hS2⟩
      | crash =>
        rw [iterLoop_succ_crash svc limit im f st hc hk]
        exact ⟨hS1, hS2⟩
    · have hc2 : seenLt st.seen.length limit = false := by
        simpa using hc
      rw [iterLoop_succ_not svc limit im f st hc2]
      exact ⟨h1, h2⟩

/- ### Claim theorems -/

/-- C1: for every enumeration run — any service behaviour, fuel, limit,
offsets, ignore_migrated flag and total handle, including pinned dialogs
repeated across pages — no PeerId appears twice in the emitted sequence
of records: a dialog whose normalized peer identity is already in the
dedup set is skipped rather than emitted again. -/
theorem emitted_peer_ids_nodup (svc : Nat → DialogsPage) (fuel : Nat)
    (limit : Option Nat) (od : Option Int) (oi : Int) (op : OffsetPeer)
    (im : Bool) (t0 : Option Nat) :
    ((iter_dialogs svc fuel limit od oi op im t0).emitted.map Dialog.id).Nodup := by
  rcases limit with _ | l
  · exact (iterLoop_emits_nodup svc none im fuel (initState od oi op t0)).1
  · rcases l with _ | l
    · rcases t0 with _ | t
      · exact List.nodup_nil
      · exact List.nodup_nil
    · exact (iterLoop_emits_nodup svc (some (l + 1)) im fuel (initState od oi op t0)).1

/-- C2 counterexample: with overall limit 3 against `ovSvc`, the second
fetch requests page size 1, yet both dialogs of that page are processed
(the log records requested 1 but processed 2) and 4 records are emitted
in total — the page was not truncated to the requested page size. -/
theorem overflow_truncation_cex :
    ((iter_dialogs ovSvc 5 (some 3) none 0 .empty false none).state.log.length = 2 ∧
      ((iter_dialogs ovSvc 5 (some 3) none 0 .empty false none).state.log.get
        ⟨1, by decide⟩).req.limit = 1 ∧
      ((iter_dialogs ovSvc 5 (some 3) none 0 .empty false none).state.log.get
        ⟨1, by decide⟩).processed = 2 ∧
      (iter_dialogs ovSvc 5 (some 3) none 0 .empty false none).emitted.length = 4) := by
  decide

/-- C2 (amended): the pinned-overflow guard truncates to the overall
limit, not to the requested page size: for every fetch, the number of
dialogs processed equals the page length capped at the overall limit
(uncapped when the limit is unbounded). -/
theorem processed_eq_cap (svc : Nat → DialogsPage) (fuel : Nat) (limit : Option Nat)
    (od : Option Int) (oi : Int) (op : OffsetPeer) (im : Bool) (t0 : Option Nat)
    (i : Nat)
    (h : i < (iter_dialogs svc fuel limit od oi op im t0).state.log.length) :
    ((iter_dialogs svc fuel limit od oi op im t0).state.log.get ⟨i, h⟩).processed =
      capLen limit (svc i).dialogs.length := by
  rcases limit with _ | l
  · exact iterLoop_log_processed svc none im fuel (initState od oi op t0)
      (by intro j hj; simp [initState] at hj) i h
  · rcases l with _ | l
    · rcases t0 with _ | t
      · exact absurd h (Nat.not_lt_zero i)
      · have hi : i = 0 := Nat.lt_one_iff.mp h
        subst hi
        show (0 : Nat) = capLen (some 0) (svc 0).dialogs.length
        simp [capLen]
    · exact iterLoop_log_processed svc (some (l + 1)) im fuel (initState od oi op t0)
        (by intro j hj; simp [initState] at hj) i h

theorem processed_eq_cap_w :
    ((iter_dialogs ovSvc 5 (some 3) none 0 .empty false none).state.log.get
      ⟨0, by decide⟩).processed = capLen (some 3) (ovSvc 0).dialogs.length :=
  processed_eq_cap ovSvc 5 (some 3) none 0 .empty false none 0 (by decide)

/-- C3 counterexample: with `ignore_migrated = true` and limit 2 against
a service of full sliced pages whose second dialog is migrated, the run
ends normally after a single fetch with only one record emitted — the
loop stopped because two distinct dialogs were seen, not because two
records were emitted, and it did not keep fetching to reach the limit. -/
theorem loop_stops_on_seen_cex :
    ((iter_dialogs migSvc 5 (some 2) none 0 .empty true none).outcome = .done ∧
      (iter_dialogs migSvc 5 (some 2) none 0 .empty true none).state.log.length = 1 ∧
      (iter_dialogs migSvc 5 (some 2) none 0 .empty true none).emitted.length = 1) := by
  decide

/-- C3 (amended): for a finite positive limit, the loop runs exactly
while the count of distinct dialogs seen (deduplicated, whether or not
their records were emitted) is below the limit, and every fetch requests
page size min(limit − seen-count, 100); with ignore_migrated filtering,
the loop may therefore stop before limit records have been emitted. -/
theorem fetch_size_uses_seen (svc : Nat → DialogsPage) (fuel : Nat) (l : Nat)
    (od : Option Int) (oi : Int) (op : OffsetPeer) (im : Bool) (t0 : Option Nat)
    (i : Nat) (hl : 0 < l)
    (h : i < (iter_dialogs svc fuel (some l) od oi op im t0).state.log.length) :
    ((((iter_dialogs svc fuel (some l) od oi op im t0).state.log.get
        ⟨i, h⟩).seenBefore < l) ∧
      ((iter_dialogs svc fuel (some l) od oi op im t0).state.log.get
        ⟨i, h⟩).req.limit =
        min (l - ((iter_dialogs svc fuel (some l) od oi op im t0).state.log.get
          ⟨i, h⟩).seenBefore) 100) := by
  rcases l with _ | l
  · exact absurd hl (lt_irrefl 0)
  · exact iterLoop_log_seen svc (l + 1) im fuel (initState od oi op t0)
      (by intro j hj; simp [initState] at hj) i h

theorem fetch_size_uses_seen_w :
    ((((iter_dialogs migSvc 5 (some 2) none 0 .empty false none).state.log.get
        ⟨0, by decide⟩).seenBefore < 2) ∧
      ((iter_dialogs migSvc 5 (some 2) none 0 .empty false none).state.log.get
        ⟨0, by decide⟩).req.limit =
        min (2 - ((iter_dialogs migSvc 5 (some 2) none 0 .empty false none).state.log.get
          ⟨0, by decide⟩).seenBefore) 100) :=
  fetch_size_uses_seen migSvc 5 2 none 0 .empty false none 0 (by decide) (by decide)

/-- C4: if the id of the last message of a page — the offset_id the
cursor would advance to — equals the offset_id already in the cursor,
and the page otherwise passes the continuation checks, the loop stops
right after that page: the run ends normally having made exactly one
more fetch, so a repeating page is never fetched indefinitely. -/
theorem stuck_cursor_stops (svc : Nat → DialogsPage) (limit : Option Nat) (im : Bool)
    (fuel : Nat) (st : LoopState) (m : Message) (lastD : DialogSummary) (e2 : Entity)
    (hc : seenLt st.seen.length limit = true)
    (hA : ¬((truncDialogs limit (svc st.log.length).dialogs).length <
      pageLimit limit st.seen.length))
    (hB : (svc st.log.length).isSlice = true)
    (hm : (svc st.log.length).messages.getLast? = some m)
    (hd : (truncDialogs limit (svc st.log.length).dialogs).getLast? = some lastD)
    (he : alookup (buildEntities (svc st.log.length).users (svc st.log.length).chats)
      lastD.peer = some e2)
    (heq : st.req.offsetId = m.id) :
    ((iterLoop svc limit im (fuel + 1) st).outcome = .done ∧
      (iterLoop svc limit im (fuel + 1) st).state.log.length = st.log.length + 1) :=
  iterLoop_stop_run svc limit im fuel st hc
    (stepPage_stuck limit im (svc st.log.length) st m lastD e2 hA hB hm hd he heq)

theorem stuck_cursor_stops_w :
    ((iterLoop stuckSvc (some 1) false 3 (initState none 10 .empty none)).outcome =
      .done ∧
      (iterLoop stuckSvc (some 1) false 3
        (initState none 10 .empty none)).state.log.length = 1) :=
  stuck_cursor_stops stuckSvc (some 1) false 2 (initState none 10 .empty none)
    ⟨10, 7⟩ (dsum 1) (ent 1) (by decide) (by decide) (by decide) (by decide)
    (by decide) (by decide) (by decide)

/-- C5: after a page is processed, the enumeration stops — run ends
normally with no further fetch — whenever the page had fewer dialogs
than the size requested for that fetch, or the response was a complete
(non-slice) shape, even if fewer than limit records were emitted. -/
theorem short_page_stops (svc : Nat → DialogsPage) (limit : Option Nat) (im : Bool)
    (fuel : Nat) (st : LoopState)
    (hc : seenLt st.seen.length limit = true)
    (h : (svc st.log.length).dialogs.length < pageLimit limit st.seen.length ∨
      (svc st.log.length).isSlice = false) :
    ((iterLoop svc limit im (fuel + 1) st).outcome = .done ∧
      (iterLoop svc limit im (fuel + 1) st).state.log.length = st.log.length + 1) :=
  iterLoop_stop_run svc limit im fuel st hc
    (stepPage_short limit im (svc st.log.length) st h)

theorem short_page_stops_w :
    ((iterLoop totSvc (some 20) false 4 (initState none 0 .empty none)).outcome =
      .done ∧
      (iterLoop totSvc (some 20) false 4
        (initState none 0 .empty none)).state.log.length = 1) :=
  short_page_stops totSvc (some 20) false 3 (initState none 0 .empty none)
    (by decide) (by decide)

/-- C6: with limit 0 and no total handle the run emits nothing and makes
no fetch; with a handle it makes exactly one fetch of size 1 carrying
the offsets of the caller, stores the total of that page in the handle,
and emits nothing. -/
theorem limit_zero_probe (svc : Nat → DialogsPage) (fuel : Nat) (od : Option Int)
    (oi : Int) (op : OffsetPeer) (im : Bool) (t0v : Nat) :
    (iter_dialogs svc fuel (some 0) od oi op im none =
      ⟨initState od oi op none, [], .done⟩ ∧
      (iter_dialogs svc fuel (some 0) od oi op im (some t0v)).emitted = [] ∧
      (iter_dialogs svc fuel (some 0) od oi op im (some t0v)).state.log =
        [⟨⟨od, oi, op, 1, false, 0⟩, 0, 0⟩] ∧
      (iter_dialogs svc fuel (some 0) od oi op im (some t0v)).state.total =
        some ((svc 0).count.getD (svc 0).dialogs.length)) :=
  ⟨rfl, rfl, rfl, rfl⟩

/-- C7: with a total handle supplied, the handle holds after the run the
total of the last fetched page — its count when present, its dialog
count otherwise — and get_dialogs returns the emitted records paired
with that total. -/
theorem total_from_last_page (svc : Nat → DialogsPage) (fuel : Nat)
    (limit : Option Nat) (od : Option Int) (oi : Int) (op : OffsetPeer) (im : Bool)
    (t0 : Nat) (n : Nat)
    (h : (iter_dialogs svc fuel limit od oi op im (some t0)).state.log.length = n + 1) :
    ((iter_dialogs svc fuel limit od oi op im (some t0)).state.total =
      some ((svc n).count.getD (svc n).dialogs.length) ∧
      getDialogs svc fuel limit od oi op im =
        ((iter_dialogs svc fuel limit od oi op im (some 0)).emitted,
          ((iter_dialogs svc fuel limit od oi op im (some 0)).state.total).getD 0)) := by
  refine ⟨?_, rfl⟩
  rcases limit with _ | l
  · exact (iterLoop_total_last svc none im fuel (initState od oi op (some t0)) rfl
      (by intro k hk; simp [initState] at hk)).2 n h
  · rcases l with _ | l
    · have h1 : (1 : Nat) = n + 1 := h
      have hn : n = 0 := by omega
      subst hn
      rfl
    · exact (iterLoop_total_last svc (some (l + 1)) im fuel
        (initState od oi op (some t0)) rfl
        (by intro k hk; simp [initState] at hk)).2 n h

theorem total_from_last_page_w :
    (iter_dialogs totSvc 3 (some 10) none 0 .empty false (some 0)).state.total =
      some 500 :=
  ((total_from_last_page totSvc 3 (some 10) none 0 .empty false 0 0 (by decide)).1).trans
    (by decide)

/-- C8: with `ignore_migrated = true` the emitted sequence is exactly the
`ignore_migrated = false` sequence with the records whose resolved
entity carries a non-null migrated-to reference removed (so migrated
records are never emitted under true and are emitted under false, the
default, under which every deduplicated dialog is emitted: the emitted
count equals the dedup-set size). -/
theorem ignore_migrated_filter (svc : Nat → DialogsPage) (fuel : Nat)
    (limit : Option Nat) (od : Option Int) (oi : Int) (op : OffsetPeer)
    (t0 : Option Nat) :
    ((iter_dialogs svc fuel limit od oi op true t0).emitted =
      (iter_dialogs svc fuel limit od oi op false t0).emitted.filter
        (fun cd => (migratedOf cd).isNone) ∧
      (iter_dialogs svc fuel limit od oi op false t0).emitted.length =
        (iter_dialogs svc fuel limit od oi op false t0).state.seen.length) := by
  rcases limit with _ | l
  · refine ⟨(iterLoop_im_indep svc none fuel (initState od oi op t0)).2.2, ?_⟩
    have hlen := iterLoop_false_len svc none fuel (initState od oi op t0)
    simpa [initState] using hlen
  · rcases l with _ | l
    · rcases t0 with _ | t
      · exact ⟨rfl, rfl⟩
      · exact ⟨rfl, rfl⟩
    · refine ⟨(iterLoop_im_indep svc (some (l + 1)) fuel (initState od oi op t0)).2.2, ?_⟩
      have hlen := iterLoop_false_len svc (some (l + 1)) fuel (initState od oi op t0)
      simpa [initState] using hlen

/-- C9: the run state — dedup set, channel-pts registry, cursor, total
and fetch log — and the outcome do not depend on the ignore_migrated
flag, so a migrated dialog consumes its dedup slot and limit share even
when its record is suppressed; and every first-occurrence dialog is
added to the dedup set and, when its pts is present and non-zero, has
its pts recorded in the registry under its identity, for either flag
value. -/
theorem dedup_consumes_slot (svc : Nat → DialogsPage) (fuel : Nat)
    (limit : Option Nat) (od : Option Int) (oi : Int) (op : OffsetPeer)
    (t0 : Option Nat) :
    ((iter_dialogs svc fuel limit od oi op true t0).state =
      (iter_dialogs svc fuel limit od oi op false t0).state ∧
      (iter_dialogs svc fuel limit od oi op true t0).outcome =
        (iter_dialogs svc fuel limit od oi op false t0).outcome ∧
      ∀ (im : Bool) (e : List (Int × Entity)) (m : List (Int × Message))
        (ds1 : List DialogSummary) (d : DialogSummary) (ds2 : List DialogSummary)
        (s : List PeerId) (p : List (Int × Nat)),
        d.peer ∉ s → d.peer ∉ ds1.map DialogSummary.peer →
        (d.peer ∈ (processPage im e m (ds1 ++ d :: ds2) s p).seen ∧
          (d.pts.getD 0 ≠ 0 →
            alookup (processPage im e m (ds1 ++ d :: ds2) s p).pts d.peer =
              some (d.pts.getD 0)))) := by
  have hrun : (iter_dialogs svc fuel limit od oi op true t0).state =
      (iter_dialogs svc fuel limit od oi op false t0).state ∧
      (iter_dialogs svc fuel limit od oi op true t0).outcome =
        (iter_dialogs svc fuel limit od oi op false t0).outcome := by
    rcases limit with _ | l
    · exact ⟨(iterLoop_im_indep svc none fuel (initState od oi op t0)).1,
        (iterLoop_im_indep svc none fuel (initState od oi op t0)).2.1⟩
    · rcases l with _ | l
      · rcases t0 with _ | t
        · exact ⟨rfl, rfl⟩
        · exact ⟨rfl, rfl⟩
      · exact ⟨(iterLoop_im_indep svc (some (l + 1)) fuel (initState od oi op t0)).1,
          (iterLoop_im_indep svc (some (l + 1)) fuel (initState od oi op t0)).2.1⟩
  exact ⟨hrun.1, hrun.2, fun im e m ds1 d ds2 s p h1 h2 =>
    processPage_first_write im e m ds1 d ds2 s p h1 h2⟩

theorem dedup_consumes_slot_w :
    ((7 : Int) ∈ (processPage true [] [] [⟨7, some 3, 0⟩] [] []).seen ∧
      alookup (processPage true [] [] [⟨7, some 3, 0⟩] [] []).pts 7 = some 3) := by
  have h := (dedup_consumes_slot (fun _ => totPage) 1 none none 0 .empty none).2.2
    true [] [] [] ⟨7, some 3, 0⟩ [] [] [] (by simp) (by simp)
  exact ⟨h.1, h.2 (by decide)⟩

/-- C10: when a page passes the termination checks, the cursor advance is
total exactly under the preconditions that the page has a last message
and that the peer of its last dialog resolves in the entity table of the
page — under them the step never crashes, while a full sliced page with
no messages, or one whose last dialog has no entity, makes the whole run
end in the crashed outcome (IndexError/KeyError) instead of stopping
cleanly. -/
theorem cursor_advance_totality (limit : Option Nat) (im : Bool) (r : DialogsPage)
    (st : LoopState) (m : Message) (lastD : DialogSummary) (e2 : Entity) :
    ((r.messages.getLast? = some m →
      (truncDialogs limit r.dialogs).getLast? = some lastD →
      alookup (buildEntities r.users r.chats) lastD.peer = some e2 →
      ¬((stepPage limit im r st).kind = .crash)) ∧
      (iter_dialogs noMsgSvc 3 (some 2) none 0 .empty false none).outcome = .crashed ∧
      (iter_dialogs noEntSvc 3 (some 2) none 0 .empty false none).outcome = .crashed) := by
  refine ⟨fun hm hd he => stepPage_no_crash limit im r st m lastD e2 hm hd he, ?_, ?_⟩
  · decide
  · decide

theorem cursor_advance_totality_w :
    ¬((stepPage (some 1) false stuckPage (initState none 0 .empty none)).kind =
      .crash) :=
  (cursor_advance_totality (some 1) false stuckPage (initState none 0 .empty none)
    ⟨10, 7⟩ (dsum 1) (ent 1)).1 (by decide) (by decide) (by decide)

end Telethon
